import Mathlib

/-!
Verification of the PDF section-extraction and relevance-ranking core of the
repository (files `src/docparse.py` and `src/relevance.py`).

The Python source is shallowly embedded: each Python function becomes a Lean
definition over explicit data (pages of text blocks, sections, an abstract
embedding model passed as a function parameter).  String handling mirrors
Python semantics (`str.strip`, `str.split`, `str.endswith`, `round`) via
explicit executable definitions.
-/

/-! ## Python string primitives -/

/-- Characters removed by Python `str.strip()` (whitespace). -/
def pyWs (c : Char) : Bool := c.isWhitespace

/-- Drop trailing characters satisfying `p` (helper for `strip`). -/
def dropTrail (p : Char → Bool) (l : List Char) : List Char :=
  (l.reverse.dropWhile p).reverse

/-- Python `str.strip()` on a list of characters. -/
def pyStripList (l : List Char) : List Char :=
  dropTrail pyWs (l.dropWhile pyWs)

/-- Python `str.strip()`: removes leading and trailing whitespace. -/
def pyStrip (s : String) : String := ⟨pyStripList s.data⟩

/-- Helper for Python `str.split()`: accumulates the current word (reversed). -/
def pyWordsAux : List Char → List Char → List String
  | [], acc => if acc.isEmpty then [] else [⟨acc.reverse⟩]
  | c :: cs, acc =>
    if pyWs c then
      if acc.isEmpty then pyWordsAux cs [] else ⟨acc.reverse⟩ :: pyWordsAux cs []
    else
      pyWordsAux cs (c :: acc)

/-- Python `str.split()` with no argument: split on whitespace runs, no empty words. -/
def pyWords (s : String) : List String := pyWordsAux s.data []

/-- Python `str.endswith(c)` for a single character `c`. -/
def pyEndsWith (s : String) (c : Char) : Bool := s.data.getLast? == some c

/-- Python `round()` (banker's rounding, round half to even) on a rational.
The floor of `q` is `q.num.fdiv q.den` (floor division; the denominator of a
`Rat` is positive). -/
def pythonRound (q : ℚ) : ℤ :=
  let f := Int.fdiv q.num q.den
  let r := q - (f : ℚ)
  if r < 1/2 then f
  else if 1/2 < r then f + 1
  else if f % 2 = 0 then f else f + 1

/-! ## Data model

`Span`, `Line`, `Block` model the dictionaries produced by
`page.get_text("dict", flags=11)["blocks"]` in `docparse.py`: a block may or
may not carry a `lines` key (`Option`), and has a numeric `type` (0 = text). -/

structure Span where
  text : String
  size : ℚ
deriving DecidableEq, Repr

structure Line where
  spans : List Span
deriving DecidableEq, Repr

structure Block where
  type : Nat
  lines : Option (List Line)
deriving DecidableEq, Repr

/-- A section as produced by `parse_pdf_to_sections` (the Python dict with keys
`document`, `page_number`, `section_title`, `section_text`); the optional
`relevance_score` / `importance_rank` fields are attached later by the
relevance engine. -/
structure Section where
  document : String
  page_number : Nat
  section_title : String
  section_text : String
  relevance_score : Option ℚ
  importance_rank : Option Nat
deriving DecidableEq, Repr

/-- Output record of `analyze_subsections` (keys `document`, `refined_text`,
`page_number`). -/
structure SubsectionResult where
  document : String
  refined_text : String
  page_number : Nat
deriving DecidableEq, Repr

/-! ## Segmenter (`docparse.py`) -/

/-- All rounded span sizes of one page, in span order: the population of the
`font_sizes` tally (`for b in blocks: if 'lines' in b: ... font_sizes[round(s['size'])] += 1`). -/
def pageSpanSizes (page : List Block) : List ℤ :=
  page.flatMap fun b =>
    match b.lines with
    | some ls => ls.flatMap fun l => l.spans.map fun s => pythonRound s.size
    | none => []

/-- First-occurrence key order of a tally built by insertion (Python dict order). -/
def firstKeys (l : List ℤ) : List ℤ :=
  l.foldl (fun acc x => if x ∈ acc then acc else acc ++ [x]) []

/-- Python `max(font_sizes, key=font_sizes.get)`: the first key (in insertion
order) attaining the maximal count; `none` when the tally is empty. -/
def argmaxByCount (l : List ℤ) : Option ℤ :=
  match firstKeys l with
  | [] => none
  | k :: ks => some (ks.foldl (fun best x => if l.count best < l.count x then x else best) k)

/-- `body_font_size = max(font_sizes, key=font_sizes.get) if font_sizes else 10`. -/
def bodyFontSize (page : List Block) : ℤ :=
  match argmaxByCount (pageSpanSizes page) with
  | some k => k
  | none => 10

/-- All spans of a block, in line/span order. -/
def blockSpans (b : Block) : List Span :=
  match b.lines with
  | some ls => ls.flatMap fun l => l.spans
  | none => []

/-- The raw accumulated block text: `block_text += s['text'] + " "`. -/
def blockRaw (b : Block) : String :=
  (blockSpans b).foldl (fun acc s => acc ++ s.text ++ " ") ""

/-- `block_text = block_text.strip()`. -/
def blockText (b : Block) : String := pyStrip (blockRaw b)

/-- `avg_font_size = block_font_size / span_count if span_count > 0 else 0`. -/
def avgFontSize (b : Block) : ℚ :=
  let spans := blockSpans b
  if spans.length > 0 then ((spans.map Span.size).sum) / (spans.length : ℚ) else 0

/-- The title heuristic of `docparse.py`: larger font than the page body font
by more than 2, fewer than 15 words, not ending with a period. -/
def is_title (body : ℤ) (b : Block) : Bool :=
  decide (avgFontSize b > (body : ℚ) + 2) &&
  decide ((pyWords (blockText b)).length < 15) &&
  !(pyEndsWith (blockText b) '.')

/-- The mutable loop state of `parse_pdf_to_sections`: `current_title`,
`current_text`, the enumerate variable `page_num` (`lastPage`), and the
accumulated `sections` list. -/
structure SegState where
  current_title : String
  current_text : String
  lastPage : Nat
  sections : List Section
deriving DecidableEq, Repr

/-- Initial state: `current_title = "Introduction"`, `current_text = ""`. -/
def initSegState : SegState :=
  { current_title := "Introduction", current_text := "", lastPage := 0, sections := [] }

/-- Body of the inner `for b in blocks` loop of `parse_pdf_to_sections`. -/
def processBlock (fname : String) (pageIdx : Nat) (body : ℤ) (st : SegState) (b : Block) :
    SegState :=
  if b.type = 0 ∧ b.lines.isSome then
    let btext := blockText b
    if is_title body b = true ∧ btext ≠ "" then
      let st1 :=
        if pyStrip st.current_text ≠ "" then
          { st with sections := st.sections ++
              [{ document := fname, page_number := pageIdx + 1,
                 section_title := st.current_title,
                 section_text := pyStrip st.current_text,
                 relevance_score := none, importance_rank := none }] }
        else st
      { st1 with current_title := btext, current_text := "" }
    else
      { st with current_text := st.current_text ++ btext ++ " " }
  else st

/-- Body of the outer `for page_num, page in enumerate(doc)` loop: skip pages
with no blocks (`if not blocks: continue`), otherwise compute the page's body
font size and process every block. -/
def processPage (fname : String) (pageIdx : Nat) (st : SegState) (page : List Block) :
    SegState :=
  if page = [] then st
  else
    let body := bodyFontSize page
    page.foldl (processBlock fname pageIdx body) st

/-- The page loop, carrying the enumerate index (which is recorded in
`lastPage` even for pages skipped by `continue`, as Python's `enumerate` does). -/
def segLoop (fname : String) (st : SegState) (i : Nat) : List (List Block) → SegState
  | [] => st
  | page :: rest => segLoop fname (processPage fname i { st with lastPage := i } page) (i + 1) rest

/-- `parse_pdf_to_sections` after a successful open: the page loop followed by
the final flush (`if current_text.strip(): sections.append(...)` with
`page_number = page_num + 1`). -/
def segmentPages (fname : String) (pages : List (List Block)) : List Section :=
  let final := segLoop fname initSegState 0 pages
  if pyStrip final.current_text ≠ "" then
    final.sections ++
      [{ document := fname, page_number := final.lastPage + 1,
         section_title := final.current_title,
         section_text := pyStrip final.current_text,
         relevance_score := none, importance_rank := none }]
  else final.sections

/-- `parse_pdf_to_sections`: `pymupdf.open` is modelled as an `Except` value;
the `try/except` returns `[]` when opening fails. -/
def parse_pdf_to_sections (openResult : Except String (List (List Block)))
    (doc_filename : String) : List Section :=
  match openResult with
  | .error _ => []
  | .ok pages => segmentPages doc_filename pages

/-! Concrete inputs used in witnesses and counterexamples, including a
two-page document whose single heading-delimited section starts on page 1
and is flushed on page 2. -/

/-- A block with a single line of spans. -/
def mkBlock (spans : List Span) : Block := { type := 0, lines := some [{ spans := spans }] }

def pageOneEx : List Block :=
  [ mkBlock [{ text := "Heading A", size := 20 }],
    mkBlock [{ text := "Body one", size := 10 }, { text := "more body", size := 10 },
             { text := "again body", size := 10 }] ]

def pageTwoEx : List Block :=
  [ mkBlock [{ text := "across pages", size := 10 }],
    mkBlock [{ text := "Heading B", size := 20 }] ]

def pagesEx : List (List Block) := [pageOneEx, pageTwoEx]

/-- The single section the segmenter emits for `pagesEx`. -/
def secFlushedEx : Section :=
  { document := "doc.pdf", page_number := 2, section_title := "Heading A",
    section_text := "Body one more body again body across pages",
    relevance_score := none, importance_rank := none }

/-- A whitespace-only block in a large font: it satisfies all three title
conditions but its stripped text is empty. -/
def wsBlock : Block := mkBlock [{ text := "   ", size := 20 }]

/-- A mid-document segmenter state with non-empty accumulated text. -/
def stEx : SegState :=
  { current_title := "Introduction", current_text := "accumulated body ",
    lastPage := 0, sections := [] }

/-- A one-page document with a single body-text block and no headings. -/
def pagesIntroEx : List (List Block) :=
  [[mkBlock [{ text := "hello", size := 10 }, { text := "world", size := 10 }]]]

/-! ## Relevance engine (`relevance.py`)

The sentence-transformer model is abstracted as an encoding function
`enc : String → V` into an arbitrary embedding-vector type together with a
similarity function `sim : V → V → ℚ` (`util.cos_sim`); the nltk sentence
tokenizer is abstracted as `tokenize : String → List String`.  Encode calls
issued to the model are logged as a list of `EncodeCall` values so that
claims about "no model invocation" are statable. -/

/-- One call to `self.model.encode`: either a single string or a batch. -/
inductive EncodeCall where
  | single (text : String)
  | batch (texts : List String)
deriving DecidableEq, Repr

/-- The sort key `x['relevance_score']` (always present when the sort runs). -/
def scoreD (s : Section) : ℚ := s.relevance_score.getD 0

/-- A section with its `importance_rank` removed (used to compare ranked
output with the sorted list in rank-insensitive statements). -/
def stripRank (s : Section) : Section := { s with importance_rank := none }

/-- Sections enriched with `relevance_score = cos_sim(profile_emb, section_emb)`
(the first half of `rank_sections`). -/
def scoredSections {V : Type} (enc : String → V) (sim : V → V → ℚ)
    (sections : List Section) (relevance_profile : String) : List Section :=
  let profile_embedding := enc relevance_profile
  sections.map fun s =>
    { s with relevance_score := some (sim profile_embedding (enc s.section_text)) }

/-- `sorted(sections, key=lambda x: x['relevance_score'], reverse=True)`:
a stable descending sort, i.e. `mergeSort` with `le a b := score b ≤ score a`. -/
def sortedSections {V : Type} (enc : String → V) (sim : V → V → ℚ)
    (sections : List Section) (relevance_profile : String) : List Section :=
  (scoredSections enc sim sections relevance_profile).mergeSort
    fun a b => decide (scoreD b ≤ scoreD a)

/-- `RelevanceAnalyzer.rank_sections`, returning the ranked sections together
with the log of encode calls made. -/
def rank_sections {V : Type} (enc : String → V) (sim : V → V → ℚ)
    (sections : List Section) (relevance_profile : String) :
    List Section × List EncodeCall :=
  if sections = [] then ([], [])
  else
    ((sortedSections enc sim sections relevance_profile).enum.map
        (fun p => { p.2 with importance_rank := some (p.1 + 1) }),
     [EncodeCall.single relevance_profile,
      EncodeCall.batch (sections.map Section.section_text)])

/-- Model of `torch.topk(scores, k, sorted=True).indices`: the indices of the
`k` largest entries, ordered by descending score (ties by position; torch does
not specify tie order, and no claim depends on it). -/
def topkIndices (scores : List ℚ) (k : Nat) : List Nat :=
  ((scores.enum.mergeSort fun a b => decide (b.2 ≤ a.2)).map Prod.fst).take k

/-- The `sorted_indices` of one section in `analyze_subsections`: top-k
sentence indices by similarity, re-sorted into ascending (original) order. -/
def pickedIndices {V : Type} (enc : String → V) (sim : V → V → ℚ) (profile_embedding : V)
    (top_k_sentences : Nat) (sentences : List String) : List Nat :=
  let cosine_scores := sentences.map fun t => sim profile_embedding (enc t)
  (topkIndices cosine_scores (min top_k_sentences sentences.length)).mergeSort
    fun a b => decide (a ≤ b)

/-- The body of the `for section in ranked_sections[:top_n_sections]` loop:
`none` when the section splits into zero sentences (`continue`), otherwise the
emitted result dict. -/
def processSection {V : Type} (enc : String → V) (sim : V → V → ℚ)
    (tokenize : String → List String) (profile_embedding : V)
    (top_k_sentences : Nat) (s : Section) : Option SubsectionResult :=
  let sentences := tokenize s.section_text
  if sentences = [] then none
  else
    some { document := s.document,
           refined_text := " ".intercalate
             ((pickedIndices enc sim profile_embedding top_k_sentences sentences).map
               fun i => sentences.getD i ""),
           page_number := s.page_number }

/-- Encode calls made for one processed section (none if it was skipped). -/
def sectionCalls (tokenize : String → List String) (s : Section) : List EncodeCall :=
  if tokenize s.section_text = [] then [] else [EncodeCall.batch (tokenize s.section_text)]

/-- `RelevanceAnalyzer.analyze_subsections`: the profile is encoded first
(before the loop, even for empty input), then the first `top_n_sections`
ranked sections are processed. -/
def analyze_subsections {V : Type} (enc : String → V) (sim : V → V → ℚ)
    (tokenize : String → List String) (ranked_sections : List Section)
    (relevance_profile : String) (top_n_sections top_k_sentences : Nat) :
    List SubsectionResult × List EncodeCall :=
  let profile_embedding := enc relevance_profile
  ((ranked_sections.take top_n_sections).filterMap
      (processSection enc sim tokenize profile_embedding top_k_sentences),
   EncodeCall.single relevance_profile ::
     (ranked_sections.take top_n_sections).flatMap (sectionCalls tokenize))

/-! Concrete instantiations of the external model used in witnesses and
counterexamples: embedding vectors are rationals, the encoder is the string
length, similarity is the product, and the tokenizer splits on whitespace. -/

def encEx : String → ℚ := fun s => (s.length : ℚ)

def simEx : ℚ → ℚ → ℚ := fun a b => a * b

def tokEx : String → List String := pyWords

def secEx1 : Section :=
  { document := "a.pdf", page_number := 1, section_title := "One",
    section_text := "short", relevance_score := none, importance_rank := none }

def secEx2 : Section :=
  { document := "b.pdf", page_number := 3, section_title := "Two",
    section_text := "a much longer section text", relevance_score := none,
    importance_rank := none }

def secEx3 : Section :=
  { document := "c.pdf", page_number := 4, section_title := "Three",
    section_text := "short", relevance_score := none, importance_rank := none }

/-- A section whose text splits into zero sentences. -/
def secEmptyTok : Section :=
  { document := "e.pdf", page_number := 7, section_title := "Empty",
    section_text := "", relevance_score := none, importance_rank := none }

/-- Boolean form of the text-block guard `b['type'] == 0 and 'lines' in b`. -/
def blockIsText (b : Block) : Bool := decide (b.type = 0) && b.lines.isSome

/-- Concatenation of a list of strings (no separator). -/
def joinAll : List String → String
  | [] => ""
  | s :: rest => s ++ joinAll rest

/-- The body text a heading-free page contributes to `current_text`: each text
block's stripped text followed by the separating space. -/
def pageBodyText (page : List Block) : String :=
  joinAll ((page.filter blockIsText).map fun b => blockText b ++ " ")

/-- All body text of a heading-free document, in reading order. -/
def docBodyText (pages : List (List Block)) : String :=
  joinAll (pages.map pageBodyText)

/-! ## Helper lemmas -/

theorem dropWhile_idem (p : Char → Bool) (l : List Char) :
    (l.dropWhile p).dropWhile p = l.dropWhile p := by
  induction l with
  | nil => rfl
  | cons c cs ih =>
    by_cases h : p c
    · simp only [List.dropWhile_cons, h, if_true]
      exact ih
    · simp only [List.dropWhile_cons, h, if_false, Bool.false_eq_true]

theorem dropWhile_head_false (p : Char → Bool) (l : List Char) (c : Char) (cs : List Char)
    (h : l.dropWhile p = c :: cs) : p c = false := by
  induction l with
  | nil => simp at h
  | cons a as ih =>
    by_cases ha : p a
    · simp only [List.dropWhile_cons, ha, if_true] at h
      exact ih h
    · simp only [List.dropWhile_cons, ha, if_false, Bool.false_eq_true] at h
      cases h
      simpa using ha

theorem dropWhile_append_last (p : Char → Bool) (c : Char) (hc : p c = false) :
    ∀ ys : List Char, ∃ zs, (ys ++ [c]).dropWhile p = zs ++ [c] := by
  intro ys
  induction ys with
  | nil => exact ⟨[], by simp [List.dropWhile_cons, hc]⟩
  | cons y ys ih =>
    by_cases hy : p y
    · obtain ⟨zs, hzs⟩ := ih
      exact ⟨zs, by simp [List.dropWhile_cons, hy, hzs]⟩
    · exact ⟨y :: ys, by simp [List.dropWhile_cons, hy]⟩

theorem dropTrail_idem (p : Char → Bool) (l : List Char) :
    dropTrail p (dropTrail p l) = dropTrail p l := by
  simp only [dropTrail, List.reverse_reverse]
  rw [dropWhile_idem]

theorem pyStripList_idem (l : List Char) : pyStripList (pyStripList l) = pyStripList l := by
  unfold pyStripList
  cases hm : l.dropWhile pyWs with
  | nil => simp [dropTrail]
  | cons c cs =>
    have hc : pyWs c = false := dropWhile_head_false pyWs l c cs hm
    have hdrop : (dropTrail pyWs (c :: cs)).dropWhile pyWs = dropTrail pyWs (c :: cs) := by
      unfold dropTrail
      rw [List.reverse_cons]
      obtain ⟨zs, hzs⟩ := dropWhile_append_last pyWs c hc cs.reverse
      rw [hzs, List.reverse_append]
      simp only [List.reverse_cons, List.reverse_nil, List.nil_append, List.singleton_append]
      simp [List.dropWhile_cons, hc]
    rw [hdrop, dropTrail_idem]

theorem pyStrip_idem (s : String) : pyStrip (pyStrip s) = pyStrip s :=
  congrArg String.mk (pyStripList_idem s.data)

theorem string_append_space_ne (x y : String) : x ++ y ++ " " ≠ "" := by
  intro h
  have hd := congrArg String.data h
  rw [String.data_append, String.data_append] at hd
  have : (" " : String).data = [' '] := rfl
  rw [this] at hd
  simp at hd

theorem processBlock_lastPage (fname : String) (pageIdx : Nat) (body : ℤ)
    (st : SegState) (b : Block) :
    (processBlock fname pageIdx body st b).lastPage = st.lastPage := by
  simp only [processBlock]
  split_ifs <;> rfl

theorem foldl_processBlock_lastPage (fname : String) (pageIdx : Nat) (body : ℤ)
    (blocks : List Block) :
    ∀ st : SegState, (blocks.foldl (processBlock fname pageIdx body) st).lastPage = st.lastPage := by
  induction blocks with
  | nil => intro st; rfl
  | cons b bs ih =>
    intro st
    rw [List.foldl_cons, ih, processBlock_lastPage]

theorem processPage_lastPage (fname : String) (pageIdx : Nat) (st : SegState)
    (page : List Block) :
    (processPage fname pageIdx st page).lastPage = st.lastPage := by
  unfold processPage
  split
  · rfl
  · exact foldl_processBlock_lastPage fname pageIdx _ page st

theorem segLoop_lastPage (fname : String) :
    ∀ (pages : List (List Block)) (st : SegState) (i : Nat), pages ≠ [] →
      (segLoop fname st i pages).lastPage = i + pages.length - 1 := by
  intro pages
  induction pages with
  | nil => intro st i h; exact absurd rfl h
  | cons page rest ih =>
    intro st i _
    rw [segLoop]
    by_cases hr : rest = []
    · subst hr
      rw [segLoop, processPage_lastPage]
      simp
    · rw [ih _ (i + 1) hr]
      simp only [List.length_cons]
      omega

theorem is_title_eq_true_iff (body : ℤ) (b : Block) :
    is_title body b = true ↔
      (avgFontSize b > (body : ℚ) + 2 ∧ (pyWords (blockText b)).length < 15
        ∧ pyEndsWith (blockText b) '.' = false) := by
  simp [is_title, Bool.and_eq_true, decide_eq_true_iff, Bool.not_eq_true', and_assoc]

theorem processBlock_page_mem (fname : String) (pageIdx : Nat) (body : ℤ)
    (st : SegState) (b : Block) :
    ∀ s ∈ (processBlock fname pageIdx body st b).sections,
      s ∈ st.sections ∨ s.page_number = pageIdx + 1 := by
  intro s hs
  simp only [processBlock] at hs
  split_ifs at hs
  · rcases List.mem_append.mp hs with h | h
    · exact Or.inl h
    · rcases List.mem_singleton.mp h with rfl
      exact Or.inr rfl
  · exact Or.inl hs
  · exact Or.inl hs
  · exact Or.inl hs

theorem foldl_processBlock_page_mem (fname : String) (pageIdx : Nat) (body : ℤ) :
    ∀ (blocks : List Block) (st : SegState),
      ∀ s ∈ (blocks.foldl (processBlock fname pageIdx body) st).sections,
        s ∈ st.sections ∨ s.page_number = pageIdx + 1 := by
  intro blocks
  induction blocks with
  | nil => intro st s hs; exact Or.inl hs
  | cons b bs ih =>
    intro st s hs
    rw [List.foldl_cons] at hs
    rcases ih _ s hs with h | h
    · exact processBlock_page_mem fname pageIdx body st b s h
    · exact Or.inr h

theorem processPage_page_mem (fname : String) (pageIdx : Nat) (st : SegState)
    (page : List Block) :
    ∀ s ∈ (processPage fname pageIdx st page).sections,
      s ∈ st.sections ∨ s.page_number = pageIdx + 1 := by
  intro s hs
  unfold processPage at hs
  split at hs
  · exact Or.inl hs
  · exact foldl_processBlock_page_mem fname pageIdx _ page st s hs

/-! ## Claim theorems -/

/-- Claim C9: if the underlying document cannot be opened or parsed,
`parse_pdf_to_sections` returns the empty list instead of propagating the
error, so one corrupt input never aborts a batch. -/
theorem c9_unreadable_document_yields_empty (e : String) (doc_filename : String) :
    parse_pdf_to_sections (Except.error e) doc_filename = [] := rfl

/-- Claim C1 (amended): ranking with an empty section list returns the empty
list and makes no encode call; summarization with an empty section list
returns the empty list but still makes exactly one encode call, for the
profile (the profile is encoded before the loop), and none for any section or
sentence. -/
theorem c1_empty_input_behaviour {V : Type} (enc : String → V) (sim : V → V → ℚ)
    (tokenize : String → List String) (relevance_profile : String)
    (top_n_sections top_k_sentences : Nat) :
    rank_sections enc sim [] relevance_profile = ([], [])
    ∧ analyze_subsections enc sim tokenize [] relevance_profile
        top_n_sections top_k_sentences = ([], [EncodeCall.single relevance_profile]) := by
  constructor
  · rfl
  · simp [analyze_subsections]

/-- Claim C1 (counterexample): as stated, the claim is false for
summarization — `analyze_subsections` on the empty list still encodes the
profile, so its encode-call log is non-empty. -/
theorem c1_counterexample_profile_still_encoded :
    (analyze_subsections encEx simEx tokEx [] "profile" 5 5).2
      = [EncodeCall.single "profile"]
    ∧ (analyze_subsections encEx simEx tokEx [] "profile" 5 5).2 ≠ [] := by
  constructor
  · simp [analyze_subsections]
  · simp [analyze_subsections]

/-- Claim C10: a text block whose concatenated text is empty after trimming is
never treated as a heading — whatever its font size, word count, or trailing
character — it is appended (as whitespace) to the current section's
accumulated text, flushing nothing and leaving the current title unchanged. -/
theorem c10_empty_block_never_heading (fname : String) (pageIdx : Nat) (body : ℤ)
    (st : SegState) (b : Block) (ht : b.type = 0) (hl : b.lines.isSome)
    (he : blockText b = "") :
    processBlock fname pageIdx body st b
        = { st with current_text := st.current_text ++ blockText b ++ " " }
    ∧ (processBlock fname pageIdx body st b).sections = st.sections
    ∧ (processBlock fname pageIdx body st b).current_title = st.current_title := by
  have hmain : processBlock fname pageIdx body st b
      = { st with current_text := st.current_text ++ blockText b ++ " " } := by
    simp only [processBlock]
    rw [if_pos ⟨ht, hl⟩, if_neg]
    intro hcon
    exact hcon.2 he
  exact ⟨hmain, by rw [hmain], by rw [hmain]⟩

/-- Witness for C10 at a concrete input: a whitespace-only block in a 20pt
font (satisfying all three title conditions) is appended, not flushed. -/
theorem c10_empty_block_never_heading_witness :
    blockText wsBlock = ""
    ∧ processBlock "doc.pdf" 0 10 stEx wsBlock
        = { stEx with current_text := stEx.current_text ++ blockText wsBlock ++ " " } :=
  ⟨by decide, (c10_empty_block_never_heading "doc.pdf" 0 10 stEx wsBlock rfl rfl (by decide)).1⟩

/-- Claim C6 (counterexample): the three stated conditions do not suffice — the
whitespace-only block `wsBlock` satisfies all three (average span size 20 >
10 + 2, word count 0 < 15, no trailing period) yet is not classified as a
heading: with non-empty accumulated text it flushes no section and leaves the
current title untouched, because the code additionally requires the stripped
block text to be non-empty (`if is_title and block_text:`). -/
theorem c6_counterexample_conditions_not_sufficient :
    is_title 10 wsBlock = true
    ∧ pyStrip stEx.current_text ≠ ""
    ∧ processBlock "doc.pdf" 0 10 stEx wsBlock
        = { stEx with current_text := stEx.current_text ++ " " }
    ∧ (processBlock "doc.pdf" 0 10 stEx wsBlock).sections = []
    ∧ (processBlock "doc.pdf" 0 10 stEx wsBlock).current_title = "Introduction" := by
  refine ⟨?_, ?_, ?_, ?_, ?_⟩ <;> with_unfolding_all decide

/-- Claim C6 (amended): a text block is treated as a heading (the branch that
flushes the current section and starts a new one, leaving `current_text`
empty) iff the three conditions hold AND its stripped text is non-empty.
The non-heading branch always leaves `current_text` ending in a space, hence
non-empty, so emptiness of the resulting `current_text` characterises the
heading branch. -/
theorem c6_heading_classification_iff (fname : String) (pageIdx : Nat) (body : ℤ)
    (st : SegState) (b : Block) (ht : b.type = 0) (hl : b.lines.isSome) :
    (processBlock fname pageIdx body st b).current_text = "" ↔
      (avgFontSize b > (body : ℚ) + 2
       ∧ (pyWords (blockText b)).length < 15
       ∧ pyEndsWith (blockText b) '.' = false
       ∧ blockText b ≠ "") := by
  simp only [processBlock]
  rw [if_pos ⟨ht, hl⟩]
  by_cases h2 : is_title body b = true ∧ blockText b ≠ ""
  · rw [if_pos h2]
    have hconds := (is_title_eq_true_iff body b).mp h2.1
    exact iff_of_true rfl ⟨hconds.1, hconds.2.1, hconds.2.2, h2.2⟩
  · rw [if_neg h2]
    refine iff_of_false (string_append_space_ne _ _) ?_
    intro hcon
    exact h2 ⟨(is_title_eq_true_iff body b).mpr ⟨hcon.1, hcon.2.1, hcon.2.2.1⟩, hcon.2.2.2⟩

/-- Witness for the amended C6 at concrete inputs: a genuine 20pt two-word
heading block triggers the heading branch, and the same state with `wsBlock`
does not. -/
theorem c6_heading_classification_iff_witness :
    (processBlock "doc.pdf" 0 10 stEx (mkBlock [{ text := "Heading A", size := 20 }])).current_text = ""
    ∧ ¬ (processBlock "doc.pdf" 0 10 stEx wsBlock).current_text = "" :=
  ⟨(c6_heading_classification_iff "doc.pdf" 0 10 stEx
      (mkBlock [{ text := "Heading A", size := 20 }]) rfl (by decide)).mpr
      (by with_unfolding_all decide),
   fun h => by
    have := (c6_heading_classification_iff "doc.pdf" 0 10 stEx wsBlock rfl (by decide)).mp h
    exact this.2.2.2 (by decide)⟩

theorem string_append_empty (s : String) : s ++ "" = s :=
  String.ext (by rw [String.data_append]; exact List.append_nil s.data)

theorem string_append_assoc (a b c : String) : a ++ b ++ c = a ++ (b ++ c) :=
  String.ext (by simp only [String.data_append]; exact List.append_assoc a.data b.data c.data)

/-- Claim C2 (counterexample): in `pagesEx` the only section's first body text
(`"Body one more body again body"`, the second block of page one) is
encountered on page 1, but the section is flushed by the heading on page 2 and
the recorded `page_number` is 2, not the start page 1. -/
theorem c2_counterexample_start_page_not_recorded :
    pageOneEx.map blockText = ["Heading A", "Body one more body again body"]
    ∧ segmentPages "doc.pdf" pagesEx = [secFlushedEx]
    ∧ secFlushedEx.page_number = 2
    ∧ (segmentPages "doc.pdf" pagesEx).map Section.page_number ≠ [1] := by
  refine ⟨?_, ?_, ?_, ?_⟩ <;> with_unfolding_all decide

/-- Claim C2 (amended): the recorded `page_number` is the 1-based number of
the page on which the section is *flushed*: a section closed by a later
heading records the page of that heading (which can differ from the page of
its first text), and the final section flushed after the page loop records the
document's last page. -/
theorem c2_amended_flush_page_semantics :
    (∀ (fname : String) (pageIdx : Nat) (st : SegState) (page : List Block),
       ∀ s ∈ (processPage fname pageIdx st page).sections,
         s ∈ st.sections ∨ s.page_number = pageIdx + 1)
    ∧ (∀ (fname : String) (pages : List (List Block)), pages ≠ [] →
       ∀ s ∈ segmentPages fname pages,
         s ∈ (segLoop fname initSegState 0 pages).sections ∨ s.page_number = pages.length) := by
  refine ⟨processPage_page_mem, ?_⟩
  intro fname pages hne s hs
  simp only [segmentPages] at hs
  split at hs
  · rcases List.mem_append.mp hs with hmem | hmem
    · exact Or.inl hmem
    · rcases List.mem_singleton.mp hmem with rfl
      refine Or.inr ?_
      show (segLoop fname initSegState 0 pages).lastPage + 1 = pages.length
      rw [segLoop_lastPage fname pages initSegState 0 hne]
      have hlen : 0 < pages.length := List.length_pos.mpr hne
      omega
  · exact Or.inl hs

/-- Witness for the amended C2 at the concrete two-page document. -/
theorem c2_amended_flush_page_semantics_witness :
    pagesEx ≠ []
    ∧ secFlushedEx ∈ segmentPages "doc.pdf" pagesEx
    ∧ (secFlushedEx ∈ (segLoop "doc.pdf" initSegState 0 pagesEx).sections
       ∨ secFlushedEx.page_number = pagesEx.length) :=
  ⟨by decide, by with_unfolding_all decide,
   c2_amended_flush_page_semantics.2 "doc.pdf" pagesEx (by decide) secFlushedEx
     (by with_unfolding_all decide)⟩

theorem processBlock_text_inv (fname : String) (pageIdx : Nat) (body : ℤ)
    (st : SegState) (b : Block)
    (h : ∀ s ∈ st.sections, pyStrip s.section_text = s.section_text ∧ s.section_text ≠ "") :
    ∀ s ∈ (processBlock fname pageIdx body st b).sections,
      pyStrip s.section_text = s.section_text ∧ s.section_text ≠ "" := by
  intro s hs
  simp only [processBlock] at hs
  split_ifs at hs with h1 h2 h3
  · rcases List.mem_append.mp hs with hmem | hmem
    · exact h s hmem
    · rcases List.mem_singleton.mp hmem with rfl
      exact ⟨pyStrip_idem _, h3⟩
  · exact h s hs
  · exact h s hs
  · exact h s hs

theorem foldl_processBlock_text_inv (fname : String) (pageIdx : Nat) (body : ℤ) :
    ∀ (blocks : List Block) (st : SegState),
      (∀ s ∈ st.sections, pyStrip s.section_text = s.section_text ∧ s.section_text ≠ "") →
      ∀ s ∈ (blocks.foldl (processBlock fname pageIdx body) st).sections,
        pyStrip s.section_text = s.section_text ∧ s.section_text ≠ "" := by
  intro blocks
  induction blocks with
  | nil => intro st h; exact h
  | cons b bs ih =>
    intro st h
    rw [List.foldl_cons]
    exact ih _ (processBlock_text_inv fname pageIdx body st b h)

theorem processPage_text_inv (fname : String) (pageIdx : Nat) (st : SegState)
    (page : List Block)
    (h : ∀ s ∈ st.sections, pyStrip s.section_text = s.section_text ∧ s.section_text ≠ "") :
    ∀ s ∈ (processPage fname pageIdx st page).sections,
      pyStrip s.section_text = s.section_text ∧ s.section_text ≠ "" := by
  unfold processPage
  split
  · exact h
  · exact foldl_processBlock_text_inv fname pageIdx _ page st h

theorem segLoop_text_inv (fname : String) :
    ∀ (pages : List (List Block)) (st : SegState) (i : Nat),
      (∀ s ∈ st.sections, pyStrip s.section_text = s.section_text ∧ s.section_text ≠ "") →
      ∀ s ∈ (segLoop fname st i pages).sections,
        pyStrip s.section_text = s.section_text ∧ s.section_text ≠ "" := by
  intro pages
  induction pages with
  | nil => intro st i h; exact h
  | cons page rest ih =>
    intro st i h
    rw [segLoop]
    exact ih _ (i + 1) (processPage_text_inv fname i _ page h)

/-- Claim C5: every Section emitted by the segmenter has non-empty,
non-whitespace `section_text` (the text equals its own strip and is
non-empty); empty-after-trim accumulations are dropped, never emitted. -/
theorem c5_section_text_nonempty (openResult : Except String (List (List Block)))
    (doc_filename : String) :
    ∀ s ∈ parse_pdf_to_sections openResult doc_filename,
      pyStrip s.section_text = s.section_text ∧ s.section_text ≠ "" := by
  intro s hs
  match openResult with
  | .error e => exact absurd hs (List.not_mem_nil s)
  | .ok pages =>
    simp only [parse_pdf_to_sections, segmentPages] at hs
    have hloop := segLoop_text_inv doc_filename pages initSegState 0
      (by intro s hmem; exact absurd hmem (List.not_mem_nil s))
    split at hs
    · rename_i hguard
      rcases List.mem_append.mp hs with hmem | hmem
      · exact hloop s hmem
      · rcases List.mem_singleton.mp hmem with rfl
        exact ⟨pyStrip_idem _, hguard⟩
    · exact hloop s hs

/-- Witness for C5: the concrete flushed section of `pagesEx`. -/
theorem c5_section_text_nonempty_witness :
    secFlushedEx ∈ parse_pdf_to_sections (Except.ok pagesEx) "doc.pdf"
    ∧ pyStrip secFlushedEx.section_text = secFlushedEx.section_text
    ∧ secFlushedEx.section_text ≠ "" :=
  ⟨by with_unfolding_all decide,
   (c5_section_text_nonempty (Except.ok pagesEx) "doc.pdf" secFlushedEx
      (by with_unfolding_all decide)).1,
   (c5_section_text_nonempty (Except.ok pagesEx) "doc.pdf" secFlushedEx
      (by with_unfolding_all decide)).2⟩

theorem processBlock_noHeading (fname : String) (pageIdx : Nat) (body : ℤ)
    (st : SegState) (b : Block)
    (h : ¬(is_title body b = true ∧ blockText b ≠ "")) :
    processBlock fname pageIdx body st b
      = if blockIsText b = true then
          { st with current_text := st.current_text ++ blockText b ++ " " }
        else st := by
  simp only [processBlock, blockIsText, Bool.and_eq_true, decide_eq_true_iff]
  by_cases h1 : b.type = 0 ∧ b.lines.isSome
  · rw [if_pos h1, if_neg h, if_pos ⟨h1.1, h1.2⟩]
  · rw [if_neg h1, if_neg h1]

theorem foldl_processBlock_noHeading (fname : String) (pageIdx : Nat) (body : ℤ) :
    ∀ (blocks : List Block) (st : SegState),
      (∀ b ∈ blocks, ¬(is_title body b = true ∧ blockText b ≠ "")) →
      blocks.foldl (processBlock fname pageIdx body) st
        = { st with current_text := st.current_text ++ pageBodyText blocks } := by
  intro blocks
  induction blocks with
  | nil =>
    intro st _
    show st = { st with current_text := st.current_text ++ pageBodyText [] }
    rw [show pageBodyText [] = "" from rfl, string_append_empty]
  | cons b bs ih =>
    intro st h
    rw [List.foldl_cons,
        processBlock_noHeading fname pageIdx body st b (h b (List.mem_cons_self b bs))]
    by_cases hb : blockIsText b = true
    · rw [if_pos hb, ih _ (fun x hx => h x (List.mem_cons_of_mem b hx))]
      have hfil : pageBodyText (b :: bs) = (blockText b ++ " ") ++ pageBodyText bs := by
        simp only [pageBodyText, List.filter_cons, hb, if_true, List.map_cons]
        rfl
      rw [hfil]
      show ({ st with current_text := st.current_text ++ blockText b ++ " " ++ pageBodyText bs }
              : SegState)
          = { st with current_text := st.current_text ++ (blockText b ++ " " ++ pageBodyText bs) }
      rw [string_append_assoc, string_append_assoc, string_append_assoc]
    · rw [if_neg hb, ih _ (fun x hx => h x (List.mem_cons_of_mem b hx))]
      have hfil : pageBodyText (b :: bs) = pageBodyText bs := by
        simp only [pageBodyText, List.filter_cons, hb, if_false]
        rfl
      rw [hfil]

theorem processPage_noHeading (fname : String) (pageIdx : Nat) (st : SegState)
    (page : List Block)
    (h : ∀ b ∈ page, ¬(is_title (bodyFontSize page) b = true ∧ blockText b ≠ "")) :
    processPage fname pageIdx st page
      = { st with current_text := st.current_text ++ pageBodyText page } := by
  unfold processPage
  by_cases hp : page = []
  · subst hp
    rw [if_pos rfl, show pageBodyText [] = "" from rfl, string_append_empty]
  · rw [if_neg hp]
    exact foldl_processBlock_noHeading fname pageIdx _ page st h

theorem segLoop_noHeading (fname : String) :
    ∀ (pages : List (List Block)) (st : SegState) (i : Nat),
      (∀ page ∈ pages, ∀ b ∈ page,
        ¬(is_title (bodyFontSize page) b = true ∧ blockText b ≠ "")) →
      (segLoop fname st i pages).sections = st.sections
      ∧ (segLoop fname st i pages).current_title = st.current_title
      ∧ (segLoop fname st i pages).current_text = st.current_text ++ docBodyText pages := by
  intro pages
  induction pages with
  | nil =>
    intro st i _
    exact ⟨rfl, rfl, (string_append_empty _).symm⟩
  | cons page rest ih =>
    intro st i h
    rw [segLoop,
        processPage_noHeading fname i _ page (h page (List.mem_cons_self page rest))]
    obtain ⟨h1, h2, h3⟩ := ih
      ({ st with lastPage := i,
                 current_text := st.current_text ++ pageBodyText page }) (i + 1)
      (fun p hp => h p (List.mem_cons_of_mem page hp))
    refine ⟨h1, h2, ?_⟩
    rw [h3]
    show st.current_text ++ pageBodyText page ++ docBodyText rest
        = st.current_text ++ (pageBodyText page ++ docBodyText rest)
    rw [string_append_assoc]

/-- Claim C8: a document with some non-whitespace body text and no
heading-classified block yields exactly one section, titled with the sentinel
"Introduction", containing all of the document's body text (and carrying the
last page as its page number). -/
theorem c8_no_heading_single_intro_section (fname : String)
    (pages : List (List Block))
    (hnohead : ∀ page ∈ pages, ∀ b ∈ page,
      ¬(is_title (bodyFontSize page) b = true ∧ blockText b ≠ ""))
    (htext : pyStrip (docBodyText pages) ≠ "") :
    segmentPages fname pages
      = [{ document := fname, page_number := pages.length,
           section_title := "Introduction",
           section_text := pyStrip (docBodyText pages),
           relevance_score := none, importance_rank := none }] := by
  have hne : pages ≠ [] := by
    rintro rfl
    exact htext (by decide)
  obtain ⟨hsec, htitle, hct⟩ := segLoop_noHeading fname pages initSegState 0 hnohead
  have hlast := segLoop_lastPage fname pages initSegState 0 hne
  have hlen : 0 < pages.length := List.length_pos.mpr hne
  have hct2 : (segLoop fname initSegState 0 pages).current_text = docBodyText pages := hct
  have hpn : (segLoop fname initSegState 0 pages).lastPage + 1 = pages.length := by
    rw [hlast]; omega
  simp only [segmentPages]
  rw [hct2, if_pos htext, hsec, htitle, hpn]
  rfl

/-- Witness for C8: a one-page, heading-free document produces the single
"Introduction" section with all body text. -/
theorem c8_no_heading_single_intro_section_witness :
    (∀ page ∈ pagesIntroEx, ∀ b ∈ page,
      ¬(is_title (bodyFontSize page) b = true ∧ blockText b ≠ ""))
    ∧ pyStrip (docBodyText pagesIntroEx) ≠ ""
    ∧ segmentPages "intro.pdf" pagesIntroEx
        = [{ document := "intro.pdf", page_number := pagesIntroEx.length,
             section_title := "Introduction",
             section_text := pyStrip (docBodyText pagesIntroEx),
             relevance_score := none, importance_rank := none }] :=
  ⟨by with_unfolding_all decide, by with_unfolding_all decide,
   c8_no_heading_single_intro_section "intro.pdf" pagesIntroEx
     (by with_unfolding_all decide) (by with_unfolding_all decide)⟩

/-- Claim C7: summarization processes only the first `top_n_sections` ranked
sections (so at most `top_n_sections` results, and the output is unchanged if
the input is pre-truncated to its first `top_n_sections` elements); sections
with zero sentences are skipped with no result; every emitted result copies
`document` and `page_number` from its source section. -/
theorem c7_top_n_skip_and_field_copy {V : Type} (enc : String → V) (sim : V → V → ℚ)
    (tokenize : String → List String) (ranked_sections : List Section)
    (relevance_profile : String) (top_n_sections top_k_sentences : Nat) :
    (analyze_subsections enc sim tokenize ranked_sections relevance_profile
        top_n_sections top_k_sentences).1.length ≤ top_n_sections
    ∧ analyze_subsections enc sim tokenize ranked_sections relevance_profile
          top_n_sections top_k_sentences
        = analyze_subsections enc sim tokenize (ranked_sections.take top_n_sections)
            relevance_profile top_n_sections top_k_sentences
    ∧ (∀ (pe : V) (s : Section), tokenize s.section_text = [] →
        processSection enc sim tokenize pe top_k_sentences s = none)
    ∧ (∀ (pe : V) (s : Section) (r : SubsectionResult),
        processSection enc sim tokenize pe top_k_sentences s = some r →
        r.document = s.document ∧ r.page_number = s.page_number) := by
  refine ⟨?_, ?_, ?_, ?_⟩
  · exact le_trans (List.length_filterMap_le _ _) (List.length_take_le _ _)
  · simp [analyze_subsections, List.take_take, Nat.min_self]
  · intro pe s hs
    simp [processSection, hs]
  · intro pe s r hr
    simp only [processSection] at hr
    split at hr
    · exact absurd hr (Option.noConfusion)
    · rcases Option.some.injEq _ _ ▸ hr with h
      have h2 := Option.some.inj hr
      exact ⟨by rw [← h2], by rw [← h2]⟩

/-- Witness for C7 at concrete inputs: three sections with `top_n = 2` yield
at most two results, and a zero-sentence section is skipped. -/
theorem c7_top_n_skip_and_field_copy_witness :
    (analyze_subsections encEx simEx tokEx [secEx1, secEx2, secEx3] "pp" 2 2).1.length ≤ 2
    ∧ processSection encEx simEx tokEx (2 : ℚ) 2 secEmptyTok = none
    ∧ tokEx secEmptyTok.section_text = [] :=
  ⟨(c7_top_n_skip_and_field_copy encEx simEx tokEx [secEx1, secEx2, secEx3] "pp" 2 2).1,
   (c7_top_n_skip_and_field_copy encEx simEx tokEx [secEx1, secEx2, secEx3] "pp" 2 2).2.2.1
     (2 : ℚ) secEmptyTok (by decide),
   by decide⟩

theorem topkIndices_nodup_len_mem (scores : List ℚ) (k : Nat) :
    (topkIndices scores k).Nodup
    ∧ (topkIndices scores k).length = min k scores.length
    ∧ ∀ i ∈ topkIndices scores k, i < scores.length := by
  have hperm : ((scores.enum.mergeSort fun a b => decide (b.2 ≤ a.2)).map Prod.fst).Perm
      (List.range scores.length) := by
    have h1 := (List.mergeSort_perm scores.enum fun a b => decide (b.2 ≤ a.2)).map Prod.fst
    rw [List.enum_map_fst] at h1
    exact h1
  have hnodupbase : ((scores.enum.mergeSort fun a b => decide (b.2 ≤ a.2)).map Prod.fst).Nodup :=
    hperm.symm.nodup (List.nodup_range _)
  have hlenbase : ((scores.enum.mergeSort fun a b => decide (b.2 ≤ a.2)).map Prod.fst).length
      = scores.length := hperm.length_eq.trans (List.length_range _)
  refine ⟨?_, ?_, ?_⟩
  · exact List.Nodup.sublist (List.take_sublist _ _) hnodupbase
  · show (List.take k _).length = _
    rw [List.length_take, hlenbase]
  · intro i hi
    have hmem := (List.take_sublist k _).subset hi
    have := hperm.mem_iff.mp hmem
    exact List.mem_range.mp this

theorem ascMergeSort_strict_incr (l : List Nat) (h : l.Nodup) :
    ((l.mergeSort fun a b => decide (a ≤ b)).Pairwise (· < ·))
    ∧ (l.mergeSort fun a b => decide (a ≤ b)).length = l.length
    ∧ ∀ i ∈ l.mergeSort fun a b => decide (a ≤ b), i ∈ l := by
  have hperm := List.mergeSort_perm l fun a b => decide (a ≤ b)
  have hsorted := @List.sorted_mergeSort Nat (fun a b : Nat => decide (a ≤ b))
    (fun a b c hab hbc =>
      decide_eq_true (le_trans (of_decide_eq_true hab) (of_decide_eq_true hbc)))
    (fun a b => by
      simp only [Bool.or_eq_true, decide_eq_true_eq]
      exact le_total a b)
    l
  have hle : (l.mergeSort fun a b => decide (a ≤ b)).Pairwise (fun a b : Nat => a ≤ b) :=
    hsorted.imp fun hab => of_decide_eq_true hab
  have hnodup : (l.mergeSort fun a b => decide (a ≤ b)).Nodup := hperm.symm.nodup h
  refine ⟨?_, hperm.length_eq, fun i hi => hperm.mem_iff.mp hi⟩
  exact (hle.and hnodup).imp fun hab => lt_of_le_of_ne hab.1 hab.2

theorem pickedIndices_props {V : Type} (enc : String → V) (sim : V → V → ℚ) (pe : V)
    (top_k : Nat) (sentences : List String) :
    (pickedIndices enc sim pe top_k sentences).length = min top_k sentences.length
    ∧ (pickedIndices enc sim pe top_k sentences).Pairwise (· < ·)
    ∧ ∀ i ∈ pickedIndices enc sim pe top_k sentences, i < sentences.length := by
  have hslen : (sentences.map fun t => sim pe (enc t)).length = sentences.length :=
    List.length_map _ _
  obtain ⟨htnodup, htlen, htmem⟩ :=
    topkIndices_nodup_len_mem (sentences.map fun t => sim pe (enc t))
      (min top_k sentences.length)
  obtain ⟨hstrict, hsortlen, hsortmem⟩ :=
    ascMergeSort_strict_incr
      (topkIndices (sentences.map fun t => sim pe (enc t)) (min top_k sentences.length))
      htnodup
  refine ⟨?_, hstrict, ?_⟩
  · show (List.mergeSort _ _).length = _
    rw [hsortlen, htlen, hslen, Nat.min_assoc, Nat.min_self]
  · intro i hi
    have := htmem i (hsortmem i hi)
    rwa [hslen] at this

/-- Claim C4: for every processed section with at least one sentence,
summarization selects exactly `min(top_k_sentences, sentence_count)` sentence
indices, the selected indices are strictly increasing (so the sentences appear
in `refined_text` in their original order, whatever their score order), they
are all in range, and `refined_text` joins exactly those sentences with a
single space. -/
theorem c4_summarization_selection {V : Type} (enc : String → V) (sim : V → V → ℚ)
    (tokenize : String → List String) (pe : V) (top_k_sentences : Nat) (s : Section)
    (h : tokenize s.section_text ≠ []) :
    processSection enc sim tokenize pe top_k_sentences s
        = some { document := s.document,
                 refined_text := " ".intercalate
                   ((pickedIndices enc sim pe top_k_sentences (tokenize s.section_text)).map
                     fun i => (tokenize s.section_text).getD i ""),
                 page_number := s.page_number }
    ∧ (pickedIndices enc sim pe top_k_sentences (tokenize s.section_text)).length
        = min top_k_sentences (tokenize s.section_text).length
    ∧ (pickedIndices enc sim pe top_k_sentences (tokenize s.section_text)).Pairwise (· < ·)
    ∧ ∀ i ∈ pickedIndices enc sim pe top_k_sentences (tokenize s.section_text),
        i < (tokenize s.section_text).length := by
  obtain ⟨h1, h2, h3⟩ := pickedIndices_props enc sim pe top_k_sentences (tokenize s.section_text)
  refine ⟨?_, h1, h2, h3⟩
  simp only [processSection]
  rw [if_neg h]

/-- Witness for C4 at concrete inputs: the five-sentence section `secEx2` with
`top_k = 2` selects exactly two indices, strictly increasing. -/
theorem c4_summarization_selection_witness :
    tokEx secEx2.section_text ≠ []
    ∧ (pickedIndices encEx simEx (2 : ℚ) 2 (tokEx secEx2.section_text)).length
        = min 2 (tokEx secEx2.section_text).length
    ∧ (pickedIndices encEx simEx (2 : ℚ) 2 (tokEx secEx2.section_text)).Pairwise (· < ·) :=
  ⟨by decide,
   (c4_summarization_selection encEx simEx tokEx (2 : ℚ) 2 secEx2 (by decide)).2.1,
   (c4_summarization_selection encEx simEx tokEx (2 : ℚ) 2 secEx2 (by decide)).2.2.1⟩

theorem scoreLe_trans : ∀ a b c : Section,
    decide (scoreD b ≤ scoreD a) = true → decide (scoreD c ≤ scoreD b) = true →
    decide (scoreD c ≤ scoreD a) = true :=
  fun _ _ _ hab hbc =>
    decide_eq_true (le_trans (of_decide_eq_true hbc) (of_decide_eq_true hab))

theorem scoreLe_total : ∀ a b : Section,
    (decide (scoreD b ≤ scoreD a) || decide (scoreD a ≤ scoreD b)) = true := by
  intro a b
  simp only [Bool.or_eq_true, decide_eq_true_eq]
  exact le_total (scoreD b) (scoreD a)

theorem snd_mem_of_mem_enumFrom {α : Type} :
    ∀ {l : List α} {n : Nat} {p : Nat × α}, p ∈ l.enumFrom n → p.2 ∈ l := by
  intro l
  induction l with
  | nil => intro n p h; simp [List.enumFrom] at h
  | cons a as ih =>
    intro n p h
    rw [List.enumFrom_cons] at h
    rcases List.mem_cons.mp h with rfl | h2
    · exact List.mem_cons_self _ _
    · exact List.mem_cons_of_mem _ (ih h2)

theorem pairwise_enumFrom_snd {α : Type} {R : α → α → Prop} :
    ∀ (l : List α) (n : Nat), l.Pairwise R →
      (l.enumFrom n).Pairwise fun p q => R p.2 q.2 := by
  intro l
  induction l with
  | nil => intro n _; simp [List.enumFrom]
  | cons a as ih =>
    intro n h
    rw [List.enumFrom_cons]
    rcases List.pairwise_cons.mp h with ⟨h1, h2⟩
    refine List.pairwise_cons.mpr ⟨?_, ih (n + 1) h2⟩
    intro q hq
    exact h1 q.2 (snd_mem_of_mem_enumFrom hq)

/-- Claim C3: after ranking a non-empty list of N sections, the assigned
`importance_rank` values are exactly `1..N` in output order (hence a
permutation of `1..N`), the output scores are non-increasing along the list,
equal-score sections keep their original (ingestion) order — any equal-score
pair appearing in order in the scored input is still in that order after the
sort — and the ranked output consists of the sorted sections with only the
rank field added. -/
theorem c3_ranking_rank_sorted_stable {V : Type} (enc : String → V) (sim : V → V → ℚ)
    (sections : List Section) (relevance_profile : String) (h : sections ≠ []) :
    ((rank_sections enc sim sections relevance_profile).1.map Section.importance_rank
        = (List.range sections.length).map fun i => some (i + 1))
    ∧ (rank_sections enc sim sections relevance_profile).1.Pairwise
        (fun a b => scoreD b ≤ scoreD a)
    ∧ (∀ a b : Section,
        [a, b].Sublist (scoredSections enc sim sections relevance_profile) →
        a.relevance_score = b.relevance_score →
        [a, b].Sublist (sortedSections enc sim sections relevance_profile))
    ∧ (rank_sections enc sim sections relevance_profile).1.map stripRank
        = (sortedSections enc sim sections relevance_profile).map stripRank := by
  have hlensorted : (sortedSections enc sim sections relevance_profile).length
      = sections.length := by
    simp only [sortedSections, scoredSections]
    rw [List.length_mergeSort, List.length_map]
  have hout : (rank_sections enc sim sections relevance_profile).1
      = (sortedSections enc sim sections relevance_profile).enum.map
          (fun p => { p.2 with importance_rank := some (p.1 + 1) }) := by
    simp only [rank_sections, if_neg h]
  refine ⟨?_, ?_, ?_, ?_⟩
  · rw [hout, List.map_map]
    have hcomp : (Section.importance_rank ∘ fun p : Nat × Section =>
        { p.2 with importance_rank := some (p.1 + 1) })
        = (fun i => some (i + 1)) ∘ Prod.fst := rfl
    rw [hcomp, List.enum_eq_zip_range, ← List.map_map, List.map_fst_zip]
    · rw [hlensorted]
    · exact le_of_eq (List.length_range _)
  · have hsorted := List.sorted_mergeSort scoreLe_trans scoreLe_total
      (scoredSections enc sim sections relevance_profile)
    have hsorted2 : (sortedSections enc sim sections relevance_profile).Pairwise
        (fun a b => scoreD b ≤ scoreD a) :=
      hsorted.imp fun hab => of_decide_eq_true hab
    have henum := pairwise_enumFrom_snd
      (sortedSections enc sim sections relevance_profile) 0 hsorted2
    rw [hout]
    exact List.pairwise_map.mpr henum
  · intro a b hsub heq
    have hscore : scoreD a = scoreD b := by
      unfold scoreD
      rw [heq]
    exact List.pair_sublist_mergeSort scoreLe_trans scoreLe_total
      (decide_eq_true (le_of_eq hscore.symm)) hsub
  · rw [hout, List.map_map]
    have hcomp2 : (stripRank ∘ fun p : Nat × Section =>
        { p.2 with importance_rank := some (p.1 + 1) }) = stripRank ∘ Prod.snd := rfl
    rw [hcomp2, ← List.map_map, List.enum_map_snd]

/-- Witness for C3 at a concrete input: two sections with identical text
(hence tied scores) keep their input order and receive ranks `[1, 2]`. -/
theorem c3_ranking_rank_sorted_stable_witness :
    ([secEx1, secEx3] : List Section) ≠ []
    ∧ (rank_sections encEx simEx [secEx1, secEx3] "pp").1.map Section.importance_rank
        = (List.range ([secEx1, secEx3] : List Section).length).map (fun i => some (i + 1))
    ∧ (rank_sections encEx simEx [secEx1, secEx3] "pp").1.map Section.document
        = ["a.pdf", "c.pdf"] :=
  ⟨by decide,
   (c3_ranking_rank_sorted_stable encEx simEx [secEx1, secEx3] "pp" (by decide)).1,
   by with_unfolding_all decide⟩
